import Mathlib

/-!
Verification of the fb2c FB2-to-MOBI converter against its specification.

Each Go function relevant to the checked claims is shallowly embedded as an
executable Lean definition over `Nat` and `List Nat` (byte strings are lists
of byte values; machine-integer wraparound is an explicit `% 2 ^ 32` or
`% 2 ^ 16` at the places where Go converts or overflows).  Loops that Go
writes with mutable indices are embedded as structural recursion, either on
the remaining iteration count or on an explicit fuel argument that is chosen
large enough that fuel exhaustion coincides with loop exit (each loop
iteration advances its index by at least one, so `length` fuel suffices;
where termination itself is part of a claim the embedding returns `Option`
and `none` marks fuel exhaustion, which the theorem rules out).
-/

namespace Fb2c

/-! ### Shared byte-level helpers (binary.BigEndian of encoding/binary) -/

/-- Big-endian serialization of a `uint32` value, as in `binary.Write` with
`binary.BigEndian`. -/
def u32be (v : Nat) : List Nat :=
  [v / 2 ^ 24 % 256, v / 2 ^ 16 % 256, v / 2 ^ 8 % 256, v % 256]

/-- Big-endian serialization of a `uint16` value. -/
def u16be (v : Nat) : List Nat :=
  [v / 2 ^ 8 % 256, v % 256]

/-- `binary.BigEndian.Uint32(data[off : off+4])`. -/
def readU32be (data : List Nat) (off : Nat) : Nat :=
  data.getD off 0 * 2 ^ 24 + data.getD (off + 1) 0 * 2 ^ 16 +
    data.getD (off + 2) 0 * 2 ^ 8 + data.getD (off + 3) 0

/-- `binary.BigEndian.Uint16(data[off : off+2])`. -/
def readU16be (data : List Nat) (off : Nat) : Nat :=
  data.getD off 0 * 2 ^ 8 + data.getD (off + 1) 0

/-- Byte string of an ASCII Lean string literal (Go source strings in the
repository that reach these code paths are ASCII, where code points and
bytes coincide). -/
def str (s : String) : List Nat :=
  s.data.map Char.toNat

/-! ### Package varint (src/unnamed/part_004)

Variable Width Integer encoding.  Values are `uint32`, bytes are `byte`;
both are embedded as `Nat`. -/

namespace varint

/-- Errors of the varint package: `ErrUnderflow`, `ErrOverflow` (declared at
part_004 lines 14-17), and the inline `errors.New("varint: no data")`. -/
inductive VError where
  | underflow
  | overflow
  | noData
deriving DecidableEq, Repr

/-- The 7-bit chunk extraction loop shared by `EncodeForward` and
`EncodeBackward` (part_004 lines 29-32 and 56-59): repeatedly append
`value & 0x7F` and shift the value right by 7, least significant chunk
first, while the value is positive. -/
def chunks7 : Nat → List Nat
  | 0 => []
  | v + 1 => ((v + 1) % 128) :: chunks7 ((v + 1) / 128)
decreasing_by exact Nat.div_lt_self (Nat.succ_pos v) (by omega)

/-- `chunks[0] |= 0x80` of `EncodeForward` (part_004 line 35). -/
def setMSBHead : List Nat → List Nat
  | [] => []
  | c :: rest => (c ||| 0x80) :: rest

/-- `chunks[len(chunks)-1] |= 0x80` of `EncodeBackward` (part_004 line 62). -/
def setMSBLast : List Nat → List Nat
  | [] => []
  | [c] => [c ||| 0x80]
  | c :: c2 :: rest => c :: setMSBLast (c2 :: rest)

/-- `EncodeForward` (part_004 lines 22-44): zero encodes to `[0x80]`;
otherwise extract 7-bit chunks LSB first, set the continuation bit on the
first (least significant) chunk, and reverse into big-endian order. -/
def EncodeForward (value : Nat) : List Nat :=
  if value = 0 then [0x80]
  else (setMSBHead (chunks7 value)).reverse

/-- `EncodeBackward` (part_004 lines 49-71): like `EncodeForward` but the
continuation bit is set on the last (most significant) chunk, so that it
lands on the first byte of the reversed output. -/
def EncodeBackward (value : Nat) : List Nat :=
  if value = 0 then [0x80]
  else (setMSBLast (chunks7 value)).reverse

/-- Decidable equality for `Except` results, used to evaluate the decoders
on concrete inputs. -/
def exceptDecEq {e a : Type} [DecidableEq e] [DecidableEq a] :
    DecidableEq (Except e a)
  | .error x, .error y =>
    if h : x = y then isTrue (by rw [h])
    else isFalse (by intro hh; cases hh; exact h rfl)
  | .error _, .ok _ => isFalse (by intro h; cases h)
  | .ok _, .error _ => isFalse (by intro h; cases h)
  | .ok x, .ok y =>
    if h : x = y then isTrue (by rw [h])
    else isFalse (by intro hh; cases hh; exact h rfl)

instance {e a : Type} [DecidableEq e] [DecidableEq a] :
    DecidableEq (Except e a) := exceptDecEq

/-- The byte-collection loop of `DecodeForward` (part_004 lines 83-88):
append `b & 0x7F` for each byte and stop after the first byte whose
`b & 0x80` is non-zero. -/
def takeUntilMSB : List Nat → List Nat
  | [] => []
  | b :: rest =>
    if b &&& 0x80 ≠ 0 then [b &&& 0x7F]
    else (b &&& 0x7F) :: takeUntilMSB rest

/-- The accumulation loop `value = (value << 7) | uint32(b)` (part_004
lines 96-98), with the `uint32` wraparound of the shift made explicit. -/
def accum7 (bytes : List Nat) : Nat :=
  bytes.foldl (fun v b => ((v <<< 7) % 2 ^ 32) ||| b) 0

/-- `DecodeForward` (part_004 lines 75-101). -/
def DecodeForward (data : List Nat) : Except VError (Nat × Nat) :=
  if data = [] then .error .underflow
  else
    let bytes := takeUntilMSB data
    if bytes = [] then .error .noData
    else .ok (accum7 bytes, bytes.length)

/-- `DecodeBackward` (part_004 lines 105-142): reverse the data, collect
bytes up to the first continuation bit, reverse the collected bytes back,
then accumulate MSB-first. -/
def DecodeBackward (data : List Nat) : Except VError (Nat × Nat) :=
  if data = [] then .error .underflow
  else
    let bytes := takeUntilMSB data.reverse
    if bytes = [] then .error .noData
    else .ok (accum7 bytes.reverse, bytes.length)

/-! #### Arithmetic facts about the embedding -/

theorem lor_pow_two_mul_add (a b : Nat) (hb : b < 128) :
    (2 ^ 7 * a) ||| b = 2 ^ 7 * a + b := by
  apply Nat.eq_of_testBit_eq
  intro j
  rw [Nat.testBit_lor]
  have h0 : (2 ^ 7 * a + 0).testBit j =
      if j < 7 then (0 : Nat).testBit j else a.testBit (j - 7) :=
    Nat.testBit_mul_pow_two_add a (by omega) j
  have hs : (2 ^ 7 * a + b).testBit j =
      if j < 7 then b.testBit j else a.testBit (j - 7) :=
    Nat.testBit_mul_pow_two_add a hb j
  rw [Nat.add_zero] at h0
  rw [hs, h0]
  by_cases hj : j < 7
  · simp [hj]
  · have hbj : b.testBit j = false := by
      apply Nat.testBit_eq_false_of_lt
      calc b < 128 := hb
        _ = 2 ^ 7 := by norm_num
        _ ≤ 2 ^ j := Nat.pow_le_pow_right (by omega) (by omega)
    simp [hj, hbj]

theorem lor_mul128 (a b : Nat) (hb : b < 128) :
    (a * 128) ||| b = a * 128 + b := by
  have h := lor_pow_two_mul_add a b hb
  have h128 : (2 : Nat) ^ 7 = 128 := by norm_num
  rw [h128, Nat.mul_comm] at h
  exact h

theorem lor128_eq_add (b : Nat) (hb : b < 128) : b ||| 128 = b + 128 := by
  have h := lor_mul128 1 b hb
  rw [Nat.one_mul] at h
  rw [Nat.lor_comm]
  omega

theorem land127_eq_mod (x : Nat) : x &&& 127 = x % 128 := by
  have h := Nat.and_pow_two_sub_one_eq_mod x 7
  norm_num at h
  exact h

theorem land128_eq_zero (b : Nat) (hb : b < 128) : b &&& 128 = 0 := by
  have h := Nat.and_two_pow b 7
  have ht : b.testBit 7 = false :=
    Nat.testBit_eq_false_of_lt (by norm_num at *; omega)
  rw [ht] at h
  norm_num at h
  exact h

theorem land128_of_add (b : Nat) (hb : b < 128) : (b + 128) &&& 128 ≠ 0 := by
  have h := Nat.and_two_pow (b + 128) 7
  have ht : (b + 128).testBit 7 = true := by
    have := Nat.testBit_mul_pow_two_add 1 (i := 7) (b := b) (by omega) 7
    norm_num at this
    rw [Nat.add_comm] at this
    exact this
  rw [ht] at h
  norm_num at h
  omega

/-- Every chunk produced by the extraction loop is a 7-bit value. -/
theorem chunks7_lt (v : Nat) : ∀ x ∈ chunks7 v, x < 128 := by
  induction v using Nat.strong_induction_on with
  | _ v ih =>
    match v with
    | 0 => intro x hx; simp [chunks7] at hx
    | v + 1 =>
      intro x hx
      rw [chunks7] at hx
      rcases List.mem_cons.mp hx with h | h
      · subst h; exact Nat.mod_lt _ (by omega)
      · exact ih ((v + 1) / 128) (Nat.div_lt_self (Nat.succ_pos v) (by omega)) x h

theorem chunks7_ne_nil (v : Nat) (hv : v ≠ 0) : chunks7 v ≠ [] := by
  match v with
  | 0 => exact absurd rfl hv
  | v + 1 => rw [chunks7]; simp

/-- Base-128 reconstruction: accumulating the chunk list MSB-first recovers
the value, provided it fits in 32 bits (so the `uint32` wraparound in the
accumulator never fires). -/
theorem accum7_chunks7 (v : Nat) (hv : v < 2 ^ 32) :
    accum7 (chunks7 v).reverse = v := by
  induction v using Nat.strong_induction_on with
  | _ v ih =>
    match v with
    | 0 => simp [chunks7, accum7]
    | v + 1 =>
      rw [chunks7, List.reverse_cons]
      have hdiv : (v + 1) / 128 < v + 1 := Nat.div_lt_self (Nat.succ_pos v) (by omega)
      have ihq := ih ((v + 1) / 128) hdiv (by omega)
      unfold accum7
      rw [List.foldl_append]
      unfold accum7 at ihq
      rw [ihq]
      simp only [List.foldl_cons, List.foldl_nil]
      rw [Nat.shiftLeft_eq]
      have h2 : (2 : Nat) ^ 7 = 128 := by norm_num
      rw [h2]
      have hle : (v + 1) / 128 * 128 ≤ v + 1 := Nat.div_mul_le_self _ _
      rw [Nat.mod_eq_of_lt (by omega)]
      rw [lor_mul128 _ _ (Nat.mod_lt _ (by omega))]
      omega

/-- Collecting bytes up to the continuation bit undoes `setMSBHead` plus
reversal: the continuation byte is the final byte and all earlier bytes are
7-bit values. -/
theorem takeUntilMSB_append (xs : List Nat) (t : Nat)
    (hxs : ∀ x ∈ xs, x < 128) (ht : t &&& 0x80 ≠ 0) :
    takeUntilMSB (xs ++ [t]) = xs.map (· &&& 0x7F) ++ [t &&& 0x7F] := by
  induction xs with
  | nil => simp [takeUntilMSB, ht]
  | cons x xs ihx =>
    have hx : x < 128 := hxs x (by simp)
    have hx0 : x &&& 0x80 = 0 := land128_eq_zero x hx
    simp only [List.cons_append, takeUntilMSB, hx0]
    rw [if_neg (by simp)]
    rw [List.append_eq, ihx (fun y hy => hxs y (by simp [hy]))]
    simp

/-- On a list of 7-bit values, the masking in `takeUntilMSB` is the
identity. -/
theorem map_land127_id (xs : List Nat) (hxs : ∀ x ∈ xs, x < 128) :
    xs.map (· &&& 0x7F) = xs := by
  induction xs with
  | nil => simp
  | cons x xs ihx =>
    have hx : x < 128 := hxs x (by simp)
    simp only [List.map_cons]
    rw [land127_eq_mod, Nat.mod_eq_of_lt hx,
      ihx (fun y hy => hxs y (by simp [hy]))]

/-- `setMSBLast` on a non-empty list of 7-bit values is undone by
`takeUntilMSB`. -/
theorem takeUntilMSB_setMSBLast (xs : List Nat) (hne : xs ≠ [])
    (hxs : ∀ x ∈ xs, x < 128) :
    takeUntilMSB (setMSBLast xs) = xs := by
  induction xs with
  | nil => exact absurd rfl hne
  | cons x xs ihx =>
    match xs, ihx with
    | [], _ =>
      have hx : x < 128 := hxs x (by simp)
      rw [setMSBLast, lor128_eq_add x hx]
      unfold takeUntilMSB
      rw [if_pos (land128_of_add x hx)]
      rw [land127_eq_mod, Nat.add_mod_right, Nat.mod_eq_of_lt hx]
    | y :: ys, ihx =>
      have hx : x < 128 := hxs x (by simp)
      have hx0 : x &&& 0x80 = 0 := land128_eq_zero x hx
      rw [setMSBLast]
      unfold takeUntilMSB
      rw [if_neg (by simp [hx0])]
      rw [land127_eq_mod, Nat.mod_eq_of_lt hx]
      rw [ihx (by simp) (fun z hz => hxs z (by simp [hz]))]

theorem setMSBLast_length (xs : List Nat) : (setMSBLast xs).length = xs.length := by
  induction xs with
  | nil => rfl
  | cons x xs ihx =>
    match xs, ihx with
    | [], _ => rfl
    | y :: ys, ihx => rw [setMSBLast]; simp only [List.length_cons]; rw [ihx]; simp

theorem takeUntilMSB_ne_nil (data : List Nat) (hd : data ≠ []) :
    takeUntilMSB data ≠ [] := by
  match data with
  | [] => exact absurd rfl hd
  | b :: rest =>
    rw [takeUntilMSB]
    split <;> simp

/-- Claim C5: for every value v in [0, 2^32), `DecodeForward` applied to
`EncodeForward v` returns exactly (v, n) with n the encoded length and no
error, and likewise `DecodeBackward` on `EncodeBackward v`. -/
theorem vwi_roundtrip (v : Nat) (hv : v < 2 ^ 32) :
    DecodeForward (EncodeForward v) = .ok (v, (EncodeForward v).length) ∧
    DecodeBackward (EncodeBackward v) = .ok (v, (EncodeBackward v).length) := by
  by_cases hv0 : v = 0
  · subst hv0; exact ⟨by decide, by decide⟩
  · obtain ⟨c, rest, hc⟩ : ∃ c rest, chunks7 v = c :: rest := by
      cases hcc : chunks7 v with
      | nil => exact absurd hcc (chunks7_ne_nil v hv0)
      | cons c rest => exact ⟨c, rest, rfl⟩
    have hcl : c < 128 := chunks7_lt v c (by rw [hc]; simp)
    have hrest : ∀ x ∈ rest.reverse, x < 128 := fun x hx =>
      chunks7_lt v x (by rw [hc]; simp at hx; simp [hx])
    constructor
    · rw [EncodeForward, if_neg hv0, hc, setMSBHead, List.reverse_cons]
      have hbytes : takeUntilMSB (rest.reverse ++ [c ||| 0x80]) =
          rest.reverse ++ [c] := by
        rw [lor128_eq_add c hcl,
          takeUntilMSB_append rest.reverse (c + 128) hrest (land128_of_add c hcl),
          map_land127_id rest.reverse hrest, land127_eq_mod,
          Nat.add_mod_right, Nat.mod_eq_of_lt hcl]
      rw [DecodeForward]
      rw [if_neg (by simp)]
      simp only [hbytes]
      rw [if_neg (by simp)]
      have hrev : rest.reverse ++ [c] = (chunks7 v).reverse := by
        rw [hc, List.reverse_cons]
      rw [hrev, accum7_chunks7 v hv]
      simp [hc]
    · rw [EncodeBackward, if_neg hv0]
      have hne : setMSBLast (chunks7 v) ≠ [] := by
        intro h
        have := setMSBLast_length (chunks7 v)
        rw [h, hc] at this
        simp at this
      have hbytes : takeUntilMSB ((setMSBLast (chunks7 v)).reverse).reverse =
          chunks7 v := by
        rw [List.reverse_reverse]
        exact takeUntilMSB_setMSBLast (chunks7 v) (by rw [hc]; simp)
          (chunks7_lt v)
      rw [DecodeBackward]
      rw [if_neg (by simp [hne])]
      simp only [hbytes]
      rw [if_neg (by rw [hc]; simp)]
      rw [accum7_chunks7 v hv]
      simp [setMSBLast_length, hc]

/-- Witness for C5 at the spec's own vector 0x11111. -/
theorem vwi_roundtrip_witness :
    DecodeForward (EncodeForward 0x11111) = .ok (0x11111, (EncodeForward 0x11111).length) ∧
    DecodeBackward (EncodeBackward 0x11111) = .ok (0x11111, (EncodeBackward 0x11111).length) :=
  vwi_roundtrip 0x11111 (by norm_num)

/-- Counterexample to claim C6: six bytes are consumed with no termination
bit anywhere, yet both decoders succeed instead of failing with the
overflow error the claim requires. -/
theorem vwi_overflow_counterexample :
    DecodeForward [0, 0, 0, 0, 0, 0] = .ok (0, 6) ∧
    DecodeBackward [0, 0, 0, 0, 0, 0] = .ok (0, 6) := by
  exact ⟨by decide, by decide⟩

/-- Claim C6 as amended: VWI decoding (both directions) fails exactly on
empty input, and then with the underflow error; the overflow error is never
returned (in the source `ErrOverflow` is declared but unused), and on any
non-empty input decoding succeeds. -/
theorem vwi_error_amended (data : List Nat) :
    (DecodeForward data = .error .underflow ↔ data = []) ∧
    (DecodeBackward data = .error .underflow ↔ data = []) ∧
    ((∃ e, DecodeForward data = .error e) ↔ data = []) ∧
    ((∃ e, DecodeBackward data = .error e) ↔ data = []) ∧
    DecodeForward data ≠ .error .overflow ∧
    DecodeBackward data ≠ .error .overflow := by
  by_cases hd : data = []
  · subst hd
    refine ⟨⟨fun _ => rfl, fun _ => by decide⟩,
      ⟨fun _ => rfl, fun _ => by decide⟩,
      ⟨fun _ => rfl, fun _ => ⟨.underflow, by decide⟩⟩,
      ⟨fun _ => rfl, fun _ => ⟨.underflow, by decide⟩⟩, by decide, by decide⟩
  · have hfwd : DecodeForward data =
        .ok (accum7 (takeUntilMSB data), (takeUntilMSB data).length) := by
      rw [DecodeForward, if_neg hd]
      simp only
      rw [if_neg (takeUntilMSB_ne_nil data hd)]
    have hrev : data.reverse ≠ [] := by simp [hd]
    have hbwd : DecodeBackward data =
        .ok (accum7 (takeUntilMSB data.reverse).reverse,
          (takeUntilMSB data.reverse).length) := by
      rw [DecodeBackward, if_neg hd]
      simp only
      rw [if_neg (takeUntilMSB_ne_nil data.reverse hrev)]
    refine ⟨⟨fun he => ?_, fun h => absurd h hd⟩,
      ⟨fun he => ?_, fun h => absurd h hd⟩,
      ⟨fun ⟨e, he⟩ => ?_, fun h => absurd h hd⟩,
      ⟨fun ⟨e, he⟩ => ?_, fun h => absurd h hd⟩, ?_, ?_⟩
    · rw [hfwd] at he; exact absurd he (by simp)
    · rw [hbwd] at he; exact absurd he (by simp)
    · rw [hfwd] at he; exact absurd he (by simp)
    · rw [hbwd] at he; exact absurd he (by simp)
    · rw [hfwd]; simp
    · rw [hbwd]; simp

end varint

/-! ### PalmDOC compression (src/unnamed/part_008, package mobi)

`CompressPalmDOC`, `compressRecord`, `findLZMatch`, `findBinarySequence`
and `DecompressPalmDOC`, embedded over byte lists.  The `for` loops are
embedded as recursion on an explicit countdown (`remaining` iterations) or
on fuel equal to the data length, which bounds the iteration count because
every iteration advances the position by at least one. -/

namespace palmdoc

/-- `lzMatch` (part_008 lines 385-388). -/
structure lzMatch where
  distance : Nat
  length : Nat
deriving DecidableEq, Repr

/-- `binarySeq` (part_008 lines 458-461). -/
structure binarySeq where
  length : Nat
  byteValue : Nat
deriving DecidableEq, Repr

/-- The inner scan of `findLZMatch` (part_008 lines 425-447): iterate `i`
from `lookbackStart` while `i < pos` (the countdown `remaining` starts at
`pos - lookbackStart`), skip overlapping or too-distant candidates, and on
the first match longer than the best so far record it and break. -/
def lzScan (data target : List Nat) (pos length : Nat) :
    Nat → Nat → lzMatch → lzMatch
  | _, 0, best => best
  | i, remaining + 1, best =>
    if i + length > pos then lzScan data target pos length (i + 1) remaining best
    else if (data.drop i).take length = target then
      let distance := pos - i
      if distance > 2047 then lzScan data target pos length (i + 1) remaining best
      else if length > best.length then ⟨distance, length⟩
      else lzScan data target pos length (i + 1) remaining best
    else lzScan data target pos length (i + 1) remaining best

/-- The outer loop of `findLZMatch` (part_008 lines 416-452): `length` runs
from 10 down to 3 (the countdown argument runs from 8 down to 1, with
`length = countdown + 2`); a length whose window would overrun the data is
skipped, and the first length that yields a match returns it. -/
def lzLenLoop (data : List Nat) (pos lookbackStart : Nat) :
    Nat → lzMatch → lzMatch
  | 0, best => best
  | fuel + 1, best =>
    let length := fuel + 3
    if pos + length > data.length then lzLenLoop data pos lookbackStart fuel best
    else
      let target := (data.drop pos).take length
      let best2 := lzScan data target pos length lookbackStart (pos - lookbackStart) best
      if best2.length > 0 then best2
      else lzLenLoop data pos lookbackStart fuel best2

/-- `findLZMatch` (part_008 lines 391-455).  The Go `lookbackStart :=
pos - maxDistance; if lookbackStart < 0 { lookbackStart = 0 }` is the
truncated subtraction `pos - 2047` on `Nat`. -/
def findLZMatch (data : List Nat) (pos : Nat) : lzMatch :=
  if pos = 0 then ⟨0, 0⟩
  else
    let lookbackStart := pos - 2047
    lzLenLoop data pos lookbackStart 8 ⟨0, 0⟩

/-- The repeat-counting loop of `findBinarySequence` (part_008 lines
482-485): increment `length` while the next byte repeats `firstByte` and
`length < 8`; at most 8 iterations, so fuel 8 suffices. -/
def binRun (data : List Nat) (pos f : Nat) : Nat → Nat → Nat
  | 0, length => length
  | fuel + 1, length =>
    if pos + length < data.length ∧ data.getD (pos + length) 0 = f ∧ length < 8 then
      binRun data pos f fuel (length + 1)
    else length

/-- `findBinarySequence` (part_008 lines 464-496). -/
def findBinarySequence (data : List Nat) (pos : Nat) : binarySeq :=
  if pos ≥ data.length then ⟨0, 0⟩
  else
    let firstByte := data.getD pos 0
    if firstByte ≤ 0x07 ∨ (0x80 ≤ firstByte ∧ firstByte ≤ 0xFF) then
      let length := binRun data pos firstByte 8 1
      if length ≥ 2 then ⟨length, firstByte⟩ else ⟨0, 0⟩
    else ⟨0, 0⟩

/-- The main loop of `compressRecord` (part_008 lines 337-379), fuel-bounded
by the record length.  The token arithmetic keeps Go's `uint16` truncations
explicit. -/
def compressLoop (data : List Nat) : Nat → Nat → List Nat
  | 0, _ => []
  | fuel + 1, pos =>
    if pos < data.length then
      let m := findLZMatch data pos
      if m.length ≥ 3 then
        let code := (0x8000 ||| ((m.distance &&& 0x3FFF) <<< 3) % 2 ^ 16) |||
          (m.length - 3) % 2 ^ 16
        (code >>> 8) % 256 :: (code &&& 0xFF) :: compressLoop data fuel (pos + m.length)
      else if pos + 1 < data.length ∧ data.getD pos 0 = 0x20 ∧
          0x40 ≤ data.getD (pos + 1) 0 ∧ data.getD (pos + 1) 0 ≤ 0x7F then
        ((data.getD (pos + 1) 0) ^^^ 0x80) % 256 :: compressLoop data fuel (pos + 2)
      else
        let seq := findBinarySequence data pos
        if seq.length > 0 then
          let code := (0x8001 ||| ((seq.length - 1) % 2 ^ 16 <<< 8) % 2 ^ 16) |||
            seq.byteValue % 2 ^ 16
          (code >>> 8) % 256 :: (code &&& 0xFF) ::
            compressLoop data fuel (pos + seq.length)
        else data.getD pos 0 :: compressLoop data fuel (pos + 1)
    else []

/-- `compressRecord` (part_008 lines 334-382). -/
def compressRecord (data : List Nat) : List Nat :=
  compressLoop data data.length 0

/-- The record-splitting loop of `CompressPalmDOC` (part_008 lines
313-328): 4096-byte blocks, each compressed independently, with the last
byte of every non-final block duplicated after it. -/
def compressChunks (data : List Nat) : Nat → Nat → List Nat
  | 0, _ => []
  | fuel + 1, i =>
    if i < data.length then
      let endIdx := if i + 4096 > data.length then data.length else i + 4096
      let record := (data.drop i).take (endIdx - i)
      compressRecord record ++
        (if endIdx < data.length then [record.getLastD 0] else []) ++
        compressChunks data fuel (i + 4096)
    else []

/-- `CompressPalmDOC` (part_008 lines 309-331). -/
def CompressPalmDOC (data : List Nat) : List Nat :=
  compressChunks data (data.length + 1) 0

/-- The main loop of `DecompressPalmDOC` (part_008 lines 504-550),
fuel-bounded by the data length; a `break` in the Go loop returns the
output accumulated so far, which in this head-recursive embedding is the
empty continuation. -/
def decompressLoop (data : List Nat) : Nat → Nat → List Nat
  | 0, _ => []
  | fuel + 1, pos =>
    if pos < data.length then
      let byte1 := data.getD pos 0
      let pos1 := pos + 1
      if byte1 = 0x80 ∨ byte1 &&& 0x80 ≠ 0 then
        if pos1 ≥ data.length then []
        else
          let byte2 := data.getD pos1 0
          let pos2 := pos1 + 1
          let code := (byte1 % 2 ^ 16 <<< 8) % 2 ^ 16 ||| byte2 % 2 ^ 16
          if code = 0x8000 then
            if pos2 ≥ data.length then []
            else 0x3F :: decompressLoop data fuel pos2
          else if code = 0x8001 then
            if pos2 ≥ data.length then []
            else
              let length := (code >>> 8) &&& 0x3F
              let val := data.getD pos2 0
              List.replicate length val ++ decompressLoop data fuel (pos2 + 1)
          else if byte1 &&& 0x80 ≠ 0 ∧ byte2 ≠ 0x00 then
            0x20 :: (byte2 ^^^ 0x80) % 256 :: decompressLoop data fuel pos2
          else byte1 :: decompressLoop data fuel pos2
      else byte1 :: decompressLoop data fuel pos1
    else []

/-- `DecompressPalmDOC` (part_008 lines 500-553). -/
def DecompressPalmDOC (data : List Nat) : List Nat :=
  decompressLoop data data.length 0

/-- Claim C1 (code bug): decompression is not the inverse of compression,
already on the spec's own 11-byte test vector "Hello World".  The space
shortcut compresses " W" to the single byte 0xD7, but the decompressor
consumes two bytes for the shortcut, so the output is
"Hello \xEFrld" (72 101 108 108 111 32 239 114 108 100), not the input. -/
theorem palmdoc_roundtrip_bug :
    (str "Hello World").length < 4096 ∧
    CompressPalmDOC (str "Hello World") =
      [0x48, 0x65, 0x6C, 0x6C, 0x6F, 0xD7, 0x6F, 0x72, 0x6C, 0x64] ∧
    DecompressPalmDOC (CompressPalmDOC (str "Hello World")) =
      [0x48, 0x65, 0x6C, 0x6C, 0x6F, 0x20, 0xEF, 0x72, 0x6C, 0x64] ∧
    DecompressPalmDOC (CompressPalmDOC (str "Hello World")) ≠ str "Hello World" := by
  exact ⟨by decide, by decide, by decide, by decide⟩

/-- Claim C9 (code bug): on the record "abc1abc2abc" at position 8 the
target "abc" has two admissible matches of the longest length 3, at
distance 4 (position 4) and distance 8 (position 0); the inner scan runs
from the far end of the window and breaks at the first hit, so
`findLZMatch` returns the farthest match (distance 8) instead of the
closest (distance 4) required by the claim and by the function's own
comment. -/
theorem palmdoc_lz_tiebreak_bug :
    findLZMatch (str "abc1abc2abc") 8 = ⟨8, 3⟩ ∧
    ((str "abc1abc2abc").drop 4).take 3 = ((str "abc1abc2abc").drop 8).take 3 ∧
    4 + 3 ≤ 8 ∧ 8 - 4 ≤ 2047 ∧ (8 : Nat) - 4 < 8 := by
  exact ⟨by decide, by decide, by decide, by decide, by decide⟩

end palmdoc

/-! ### MOBI header (src/mobi/header.go, package mobi)

`MOBIHeader`, `NewMOBIHeader` and `MOBIHeader.Write`.  The Go struct's
trailing fields `Unknown14` through `Unknown127` (114 consecutive `uint32`
fields, declared at header.go lines 317-354 in the order they are written)
are embedded as the single list field `UnknownTail` of 114 values; nothing
in the repository ever assigns them, so they stay at their zero values. -/

namespace mobi

/-- `MOBIHeader` (header.go lines 26-193), with every field that the
serializer writes individually. -/
structure MOBIHeader where
  Compression : Nat
  Unused : Nat
  UncompressedTextSize : Nat
  RecordCount : Nat
  RecordSize : Nat
  EncryptionType : Nat
  MOBIMarker : List Nat
  HeaderLength : Nat
  MOBIType : Nat
  TextEncoding : Nat
  ID : Nat
  FormatVersion : Nat
  OrthographicIndex : Nat
  OrthographicName : Nat
  InflectionIndex : Nat
  InflectionName : Nat
  IndexNames : Nat
  IndexKeys : Nat
  ExtraIndexData : Nat
  FirstNonBookIndex : Nat
  FullNameOffset : Nat
  FullNameLength : Nat
  Locale : Nat
  InputLanguage : Nat
  OutputLanguage : Nat
  MinVersion : Nat
  FirstImageIndex : Nat
  HuffmanRecordOffset : Nat
  HuffmanRecordCount : Nat
  HuffmanTableOffset : Nat
  HuffmanTableLength : Nat
  EXTHFlags : Nat
  Unknown6 : Nat
  DRMOffset : Nat
  DRMCount : Nat
  DRMKeySize : Nat
  DRMFlags : Nat
  FirstContentRec : Nat
  LastContentRec : Nat
  Unknown10 : Nat
  FCISIndex : Nat
  FCISCount : Nat
  FLISIndex : Nat
  FLISCount : Nat
  Unknown11 : Nat
  Unknown12 : Nat
  Unknown13 : Nat
  CoverIndex : Nat
  ThumbnailIndex : Nat
  UnknownTail : List Nat
deriving DecidableEq, Repr

/-- `NewMOBIHeader` (header.go lines 196-233).  `generateRandomID` is
nondeterministic, so the ID is a parameter; the `uint32(textSize)` and
`uint16(recordCount)` conversions are explicit truncations. -/
def NewMOBIHeader (textSize recordCount id : Nat) : MOBIHeader where
  Compression := 2
  Unused := 0
  UncompressedTextSize := textSize % 2 ^ 32
  RecordCount := recordCount % 2 ^ 16
  RecordSize := 4096
  EncryptionType := 0
  MOBIMarker := [0x4D, 0x4F, 0x42, 0x49]
  HeaderLength := 232
  MOBIType := 2
  TextEncoding := 65001
  ID := id % 2 ^ 32
  FormatVersion := 6
  OrthographicIndex := 0
  OrthographicName := 0
  InflectionIndex := 0
  InflectionName := 0
  IndexNames := 0
  IndexKeys := 0
  ExtraIndexData := 0
  FirstNonBookIndex := 0xFFFFFFFF
  FullNameOffset := 0xFFFFFFFF
  FullNameLength := 0
  Locale := 0
  InputLanguage := 0
  OutputLanguage := 0
  MinVersion := 6
  FirstImageIndex := 0xFFFFFFFF
  HuffmanRecordOffset := 0
  HuffmanRecordCount := 0
  HuffmanTableOffset := 0
  HuffmanTableLength := 0
  EXTHFlags := 0x50
  Unknown6 := 0
  DRMOffset := 0
  DRMCount := 0
  DRMKeySize := 0
  DRMFlags := 0
  FirstContentRec := 1
  LastContentRec := recordCount % 2 ^ 16
  Unknown10 := 0
  FCISIndex := 0
  FCISCount := 0
  FLISIndex := 0
  FLISCount := 0
  Unknown11 := 0
  Unknown12 := 0
  Unknown13 := 0
  CoverIndex := 0xFFFFFFFF
  ThumbnailIndex := 0xFFFFFFFF
  UnknownTail := List.replicate 114 0

/-- The `fields` array of `MOBIHeader.Write` (header.go lines 263-295): the
31 `uint32` values written right after the MOBI marker, ending with the
zero padding word before `FirstContentRec`. -/
def MOBIHeader.u32Fields (h : MOBIHeader) : List Nat :=
  [h.HeaderLength, h.MOBIType, h.TextEncoding, h.ID, h.FormatVersion,
   h.OrthographicIndex, h.OrthographicName, h.InflectionIndex,
   h.InflectionName, h.IndexNames, h.IndexKeys, h.ExtraIndexData,
   h.FirstNonBookIndex, h.FullNameOffset, h.FullNameLength, h.Locale,
   h.InputLanguage, h.OutputLanguage, h.MinVersion, h.FirstImageIndex,
   h.HuffmanRecordOffset, h.HuffmanRecordCount, h.HuffmanTableOffset,
   h.HuffmanTableLength, h.EXTHFlags, h.Unknown6, h.DRMOffset, h.DRMCount,
   h.DRMKeySize, h.DRMFlags, 0]

/-- The `remaining` array of `MOBIHeader.Write` (header.go lines 312-355):
the `uint32` values written after `LastContentRec`. -/
def MOBIHeader.u32Remaining (h : MOBIHeader) : List Nat :=
  [h.Unknown10, h.FCISIndex, h.FCISCount, h.FLISIndex, h.FLISCount,
   h.Unknown11, h.Unknown12, h.Unknown13, h.CoverIndex, h.ThumbnailIndex] ++
    h.UnknownTail

/-- `MOBIHeader.Write` (header.go lines 236-364): 16-byte PalmDOC header,
4-byte MOBI marker, 31 `uint32` fields, `FirstContentRec` and
`LastContentRec` as `uint16`, then the remaining `uint32` fields. -/
def MOBIHeader.WriteBytes (h : MOBIHeader) : List Nat :=
  u16be h.Compression ++ u16be h.Unused ++ u32be h.UncompressedTextSize ++
    u16be h.RecordCount ++ u32be h.RecordSize ++ u16be h.EncryptionType ++
    h.MOBIMarker ++
    (h.u32Fields.map u32be).flatten ++
    u16be h.FirstContentRec ++ u16be h.LastContentRec ++
    (h.u32Remaining.map u32be).flatten

/-- Claim C3 (code bug): the serialized header record does not use the
fixed offsets the spec (and the repository's own header tests, which
assert a 248-byte record) require.  `MOBIHeader.Write` emits 644 bytes,
not 248; the header-length field at +0x14 and the text encoding at +0x1C
do hold 232 and 65001, but `FirstNonBookIndex` lands at +0x44 instead of
+0x50, `FullNameOffset` at +0x48 instead of +0x54, `FirstImageIndex` at
+0x60 instead of +0x6C, `EXTHFlags` at +0x74 instead of +0x80, and
`FirstContentRec`/`LastContentRec` at +0x90/+0x92 instead of +0xC0/+0xC2.
Evaluated on `NewMOBIHeader(1000, 1)` (the repository's own test input)
with ID 0. -/
theorem mobi_header_layout_bug :
    (NewMOBIHeader 1000 1 0).WriteBytes.length = 644 ∧
    (644 : Nat) ≠ 248 ∧
    readU32be (NewMOBIHeader 1000 1 0).WriteBytes 0x14 = 232 ∧
    readU32be (NewMOBIHeader 1000 1 0).WriteBytes 0x1C = 65001 ∧
    readU32be (NewMOBIHeader 1000 1 0).WriteBytes 0x50 ≠
      (NewMOBIHeader 1000 1 0).FirstNonBookIndex ∧
    readU32be (NewMOBIHeader 1000 1 0).WriteBytes 0x44 =
      (NewMOBIHeader 1000 1 0).FirstNonBookIndex ∧
    readU32be (NewMOBIHeader 1000 1 0).WriteBytes 0x54 ≠
      (NewMOBIHeader 1000 1 0).FullNameOffset ∧
    readU32be (NewMOBIHeader 1000 1 0).WriteBytes 0x48 =
      (NewMOBIHeader 1000 1 0).FullNameOffset ∧
    readU32be (NewMOBIHeader 1000 1 0).WriteBytes 0x6C ≠
      (NewMOBIHeader 1000 1 0).FirstImageIndex ∧
    readU32be (NewMOBIHeader 1000 1 0).WriteBytes 0x60 =
      (NewMOBIHeader 1000 1 0).FirstImageIndex ∧
    readU32be (NewMOBIHeader 1000 1 0).WriteBytes 0x80 ≠
      (NewMOBIHeader 1000 1 0).EXTHFlags ∧
    readU32be (NewMOBIHeader 1000 1 0).WriteBytes 0x74 =
      (NewMOBIHeader 1000 1 0).EXTHFlags ∧
    readU16be (NewMOBIHeader 1000 1 0).WriteBytes 0xC0 ≠
      (NewMOBIHeader 1000 1 0).FirstContentRec ∧
    readU16be (NewMOBIHeader 1000 1 0).WriteBytes 0x90 =
      (NewMOBIHeader 1000 1 0).FirstContentRec ∧
    readU16be (NewMOBIHeader 1000 1 0).WriteBytes 0x92 =
      (NewMOBIHeader 1000 1 0).LastContentRec := by
  set_option maxRecDepth 4096 in
  refine ⟨by decide, by decide, by decide, by decide, by decide, by decide,
    by decide, by decide, by decide, by decide, by decide, by decide,
    by decide, by decide, by decide⟩

/-! ### PalmDB writer (src/mobi/palmdb.go, package mobi)

The offset-assignment loop of `PalmDBWriter.Write` (palmdb.go lines
632-664): `dataOffset` starts at `PalmDBHeaderSize + len(entries)*8 =
78 + 8N` and each record-index entry receives `uint32(dataOffset)` before
`dataOffset` grows by that record's length. -/

/-- The loop body of the offset assignment: one `uint32` offset per
record, accumulating the running `dataOffset`. -/
def offsetsLoop : Nat → List (List Nat) → List Nat
  | _, [] => []
  | off, r :: rs => off % 2 ^ 32 :: offsetsLoop (off + r.length) rs

/-- The offsets stored in the record-index entries by
`PalmDBWriter.Write` for the given records. -/
def palmdbOffsets (records : List (List Nat)) : List Nat :=
  offsetsLoop (78 + records.length * 8) records

theorem offsetsLoop_eq (rs : List (List Nat)) :
    ∀ off, off + (rs.map List.length).sum < 2 ^ 32 →
    offsetsLoop off rs =
      (List.range rs.length).map
        (fun i => off + ((rs.take i).map List.length).sum) := by
  induction rs with
  | nil => intro off _; simp [offsetsLoop]
  | cons r rs ih =>
    intro off h
    simp only [List.map_cons, List.sum_cons] at h
    rw [offsetsLoop, Nat.mod_eq_of_lt (by omega)]
    rw [ih (off + r.length) (by omega)]
    simp only [List.length_cons]
    rw [List.range_succ_eq_map]
    simp [List.map_map, Function.comp, Nat.add_assoc]

theorem offsetsLoop_head (rs : List (List Nat)) (off : Nat) (h : rs ≠ []) :
    (offsetsLoop off rs).head? = some (off % 2 ^ 32) := by
  cases rs with
  | nil => exact absurd rfl h
  | cons r rs => rfl

theorem offsetsLoop_chain (rs : List (List Nat)) :
    ∀ off, off + (rs.map List.length).sum < 2 ^ 32 →
    List.Chain' (· ≤ ·) (offsetsLoop off rs) := by
  induction rs with
  | nil => intro off _; simp [offsetsLoop]
  | cons r rs ih =>
    intro off h
    simp only [List.map_cons, List.sum_cons] at h
    rw [offsetsLoop]
    rw [List.chain'_cons']
    constructor
    · intro b hb
      cases rs with
      | nil => simp [offsetsLoop] at hb
      | cons r2 rs2 =>
        rw [offsetsLoop_head _ _ (by simp)] at hb
        simp only [Option.mem_def, Option.some.injEq] at hb
        subst hb
        rw [Nat.mod_eq_of_lt (by omega), Nat.mod_eq_of_lt (by omega)]
        omega
    · exact ih (off + r.length) (by omega)

/-- Claim C7: in the file produced by `PalmDBWriter.Write` with N records,
record-index entry i holds offset `78 + 8N + sum of the lengths of the
records before i`, and the offsets are monotonically increasing (provided
the whole file fits the 32-bit offset field). -/
theorem palmdb_offsets_spec (records : List (List Nat))
    (hb : 78 + records.length * 8 + (records.map List.length).sum < 2 ^ 32) :
    palmdbOffsets records =
      (List.range records.length).map
        (fun i => 78 + records.length * 8 + ((records.take i).map List.length).sum) ∧
    List.Chain' (· ≤ ·) (palmdbOffsets records) := by
  constructor
  · exact offsetsLoop_eq records (78 + records.length * 8) hb
  · exact offsetsLoop_chain records (78 + records.length * 8) hb

/-- Witness for C7 on a concrete two-record database: offsets 94 and 95. -/
theorem palmdb_offsets_spec_witness :
    palmdbOffsets [[1], [2, 3]] =
      (List.range 2).map
        (fun i => 78 + 2 * 8 + ((([[1], [2, 3]] : List (List Nat)).take i).map List.length).sum) ∧
    List.Chain' (· ≤ ·) (palmdbOffsets [[1], [2, 3]]) :=
  palmdb_offsets_spec [[1], [2, 3]] (by norm_num)

end mobi

/-! ### Package opf (src/unnamed/part_010)

`OEBBook` restricted to the fields the MOBI 6 writer reads.  Strings are
byte lists; the Go `map[string]*Resource` manifest is an association list
with distinct keys, which is faithful for `GetResource` (keyed lookup) and
for `GetManifestIDs`/`HasImages` (which sort, respectively only test
existence, so iteration order is irrelevant). -/

namespace opf

/-- `Resource` (part_010 lines 28-33). -/
structure Resource where
  ID : List Nat
  Href : List Nat
  MediaType : List Nat
  Data : List Nat
deriving DecidableEq, Repr

/-- `OEBBook` (part_010 lines 10-25): manifest, metadata cover id, primary
content, and the number of entries in `TOC.Children`. -/
structure OEBBook where
  CoverID : List Nat
  Manifest : List (List Nat × Resource)
  Content : List Nat
  TOCChildren : Nat
deriving DecidableEq, Repr

/-- `GetResource` (part_010 lines 56-59): map lookup by id. -/
def GetResource (b : OEBBook) (id : List Nat) : Option Resource :=
  (b.Manifest.find? (fun p => p.1 == id)).map (·.2)

/-- Byte-lexicographic string order, the order of Go's `sort.Strings`. -/
def strLe : List Nat → List Nat → Bool
  | [], _ => true
  | _ :: _, [] => false
  | a :: as, b :: bs => if a < b then true else if b < a then false else strLe as bs

def insertSorted (s : List Nat) : List (List Nat) → List (List Nat)
  | [] => [s]
  | t :: ts => if strLe s t then s :: t :: ts else t :: insertSorted s ts

/-- Ascending byte-lexicographic sort, the semantics of `sort.Strings`. -/
def sortStrings : List (List Nat) → List (List Nat)
  | [] => []
  | s :: ss => insertSorted s (sortStrings ss)

/-- `GetManifestIDs` (part_010 lines 67-74): the manifest keys in sorted
order. -/
def GetManifestIDs (b : OEBBook) : List (List Nat) :=
  sortStrings (b.Manifest.map (·.1))

/-- The media-type test `len(res.MediaType) >= 6 && res.MediaType[0:5] ==
"image"` of `HasImages`; the writer uses the same test negated
(part_005 lines 342 and 523). -/
def isImageType (mt : List Nat) : Bool :=
  decide (6 ≤ mt.length) && decide (mt.take 5 = str "image")

/-- `HasImages` (part_010 lines 77-84). -/
def HasImages (b : OEBBook) : Bool :=
  b.Manifest.any (fun p => isImageType p.2.MediaType)

end opf

/-! ### MOBI 6 writer image resolution and record assembly
(src/unnamed/part_005, package mobi) -/

namespace mobi6

open opf

/-- The manifest-image portion of the image map (`resolveImageSources`
step 3, part_005 lines 515-528): walk the sorted manifest ids, skip the
cover id and every resource that is missing or not an image, and assign
consecutive offsets starting from the running `currentOffset`. -/
def imageMapLoop (book : OEBBook) : List (List Nat) → Nat → List (List Nat × Nat)
  | [], _ => []
  | id :: ids, currentOffset =>
    if id = book.CoverID then imageMapLoop book ids currentOffset
    else
      match GetResource book id with
      | none => imageMapLoop book ids currentOffset
      | some res =>
        if isImageType res.MediaType then
          (id, currentOffset) :: imageMapLoop book ids (currentOffset + 1)
        else imageMapLoop book ids currentOffset

/-- Steps 2-3 of `resolveImageSources` (part_005 lines 497-528): the cover
(when a cover image is supplied) occupies offset 0 under its manifest id,
or under "cover.jpg" when the metadata has no cover id; the thumbnail
reserves offset 1; the remaining manifest images follow from offset 2. -/
def buildImageMap (book : OEBBook) (coverPresent : Bool) : List (List Nat × Nat) :=
  let base : List (List Nat × Nat) :=
    if coverPresent then
      if book.CoverID ≠ [] then [(book.CoverID, 0)] else [(str "cover.jpg", 0)]
    else []
  let start := if coverPresent then 2 else 0
  base ++ imageMapLoop book (GetManifestIDs book) start

/-- Decimal digits of n, most significant first (10 digits of fuel cover
every `uint32`). -/
def decDigitsAux : Nat → Nat → List Nat
  | 0, _ => []
  | fuel + 1, n => if n = 0 then [] else decDigitsAux fuel (n / 10) ++ [48 + n % 10]

def decRepr (n : Nat) : List Nat :=
  if n = 0 then [48] else decDigitsAux 10 n

/-- `%05d`: decimal representation left-padded with ASCII zeros to at
least five digits (part_005 line 542). -/
def pad5 (n : Nat) : List Nat :=
  List.replicate (5 - (decRepr n).length) 48 ++ decRepr n

/-- A quote character of the regex character class `["']`. -/
def isQuote (c : Nat) : Bool := decide (c = 34) || decide (c = 39)

/-- `strings.TrimPrefix(url, "#")` (part_005 line 536). -/
def trimHash : List Nat → List Nat
  | 35 :: rest => rest
  | url => url

/-- A leftmost match of the regex src=["']([^"']+)["'] at the head of the
input, as found by `regexp.FindString`-style scanning: the literal `src=`,
an opening quote, a non-empty maximal run of non-quote bytes, then a
closing quote (which the maximality of the greedy `[^"']+` guarantees is
the very next byte when one exists).  Returns the opening quote, the
captured body, and the total match length. -/
def matchSrc (s : List Nat) : Option (Nat × List Nat × Nat) :=
  match s with
  | 115 :: 114 :: 99 :: 61 :: q :: rest =>
    if isQuote q then
      let body := rest.takeWhile (fun c => ¬ isQuote c)
      if body ≠ [] ∧ body.length < rest.length then
        some (q, body, 5 + body.length + 1)
      else none
    else none
  | _ => none

/-- The `ReplaceAllStringFunc` pass of `resolveImageSources` (part_005
lines 531-545): each leftmost, non-overlapping regex match whose
hash-stripped url is in the image map becomes
`recindex=<quote><%05d of index+1><quote>` (with `uint32(recIndex + 1)`);
other matches are kept verbatim.  Fuel equal to the content length bounds
the scan, which always advances by at least one byte. -/
def replaceSrcLoop (imageMap : List (List Nat × Nat)) : Nat → List Nat → List Nat
  | 0, s => s
  | fuel + 1, s =>
    match s with
    | [] => []
    | c :: rest =>
      match matchSrc (c :: rest) with
      | some (q, body, mlen) =>
        let url := trimHash body
        (match (imageMap.find? (fun p => p.1 == url)).map (·.2) with
          | some recIndex =>
            let finalIndex := (recIndex + 1) % 2 ^ 32
            str "recindex=" ++ [q] ++ pad5 finalIndex ++ [q]
          | none => (c :: rest).take mlen) ++
          replaceSrcLoop imageMap fuel ((c :: rest).drop mlen)
      | none => c :: replaceSrcLoop imageMap fuel rest

/-- `resolveImageSources` (part_005 lines 496-546), always called by the
writer with `baseIndex = 0`. -/
def resolveImageSources (book : OEBBook) (coverPresent : Bool) : List Nat :=
  replaceSrcLoop (buildImageMap book coverPresent) book.Content.length book.Content

/-- The book of the spec's image-indexing acceptance scenario: a cover
"cover.jpg" and one further manifest image "fig1.png", both referenced
from the HTML via src attributes. -/
def exampleBook : OEBBook where
  CoverID := str "cover.jpg"
  Manifest :=
    [(str "cover.jpg",
      ⟨str "cover.jpg", str "cover.jpg", str "image/jpeg", [1]⟩),
     (str "fig1.png",
      ⟨str "fig1.png", str "fig1.png", str "image/png", [2]⟩)]
  Content := str "<img src=\"cover.jpg\"/><img src=\"fig1.png\"/>"
  TOCChildren := 1

/-- Claim C2: on a book whose HTML references the cover and one further
manifest image, the rewrite turns each matched src attribute into a
zero-padded five-digit 1-based recindex relative to FirstImageIndex, with
the cover at 1, the thumbnail slot at 2 and the first manifest image at 3:
the rewritten text contains recindex="00001" and recindex="00003". -/
theorem image_recindex_rewrite :
    resolveImageSources exampleBook true =
      str "<img recindex=\"00001\"/><img recindex=\"00003\"/>" ∧
    str "recindex=\"00001\"" <:+: resolveImageSources exampleBook true ∧
    str "recindex=\"00003\"" <:+: resolveImageSources exampleBook true := by
  refine ⟨by decide, ⟨str "<img ", str "/><img recindex=\"00003\"/>", by decide⟩,
    ⟨str "<img recindex=\"00001\"/><img ", str "/>", by decide⟩⟩

/-- `WriteOptions` (part_005 lines 18-25), restricted to the fields that
determine record indices; `CoverImagePresent` is `options.CoverImage
!= nil`. -/
structure WriteOptions where
  GenerateTOC : Bool
  CoverImagePresent : Bool
deriving DecidableEq, Repr

/-- The number of text records the splitting loop produces (part_005 lines
93-108): one record per 4096-byte chunk of the resolved content, under
either compression setting. -/
def textRecordCount (book : OEBBook) (opts : WriteOptions) : Nat :=
  ((resolveImageSources book opts.CoverImagePresent).length + 4095) / 4096

/-- The header fields `(FirstImageIndex, FirstNonBookIndex)` that
`Writer.Write` (part_005 lines 68-221) passes to
`createMOBIHeaderRecordExtended` when it back-patches record 0:
`firstNonBookIndex` is fixed before any record is added (lines 125-131),
while `firstImageIndex` is re-derived from the running record index after
the text records and the optional TOC INDX record (lines 150-194).  When a
cover is present the thumbnail record always follows it, because
`generateThumbnail` returns the cover bytes themselves. -/
def writerIndices (book : OEBBook) (opts : WriteOptions) : Nat × Nat :=
  let recordCount := textRecordCount book opts
  let firstTextRecord := 1
  let hasCover := opts.CoverImagePresent
  let hasImages := HasImages book
  let firstNonBookIndex :=
    if hasCover || hasImages then (firstTextRecord + recordCount) % 2 ^ 32
    else 0xFFFFFFFF
  let recordIndex := 1 + recordCount
  let recordIndex :=
    if opts.GenerateTOC && decide (0 < book.TOCChildren) then recordIndex + 1
    else recordIndex
  let firstImageIndex :=
    if hasCover || hasImages then recordIndex % 2 ^ 32 else 0xFFFFFFFF
  (firstImageIndex, firstNonBookIndex)

/-- Counterexample to claim C4: for a book with a cover, images and a
non-empty TOC (with TOC generation on, the default), the back-patched
header has FirstImageIndex = 3 but FirstNonBookIndex = 2: the two fields
differ, because `firstNonBookIndex` is computed before the TOC INDX record
is appended and never accounts for it. -/
theorem image_index_toc_counterexample :
    (writerIndices exampleBook ⟨true, true⟩).1 = 3 ∧
    (writerIndices exampleBook ⟨true, true⟩).2 = 2 ∧
    (3 : Nat) ≠ 2 := by
  exact ⟨by decide, by decide, by decide⟩

/-- Claim C4 as amended: with no cover and no manifest images both fields
are 0xFFFFFFFF; otherwise `FirstImageIndex` holds the record index of the
cover/first image record — the record after the text records and the
optional TOC INDX record — while `FirstNonBookIndex` always holds
1 + textRecordCount, ignoring the TOC record, so the two fields are equal
exactly when no TOC INDX record is emitted. -/
theorem writer_image_indices (book : OEBBook) (opts : WriteOptions)
    (hb : textRecordCount book opts + 2 < 2 ^ 32) :
    if opts.CoverImagePresent || HasImages book then
      (writerIndices book opts).2 = 1 + textRecordCount book opts ∧
      (writerIndices book opts).1 = 1 + textRecordCount book opts +
        (if opts.GenerateTOC && decide (0 < book.TOCChildren) then 1 else 0) ∧
      ((writerIndices book opts).1 = (writerIndices book opts).2 ↔
        (opts.GenerateTOC && decide (0 < book.TOCChildren)) = false)
    else
      (writerIndices book opts).1 = 0xFFFFFFFF ∧
      (writerIndices book opts).2 = 0xFFFFFFFF := by
  by_cases hc : (opts.CoverImagePresent || HasImages book) = true
  · rw [if_pos hc]
    by_cases ht : (opts.GenerateTOC && decide (0 < book.TOCChildren)) = true
    · simp only [writerIndices, hc, ht, if_true]
      rw [Nat.mod_eq_of_lt (by omega), Nat.mod_eq_of_lt (by omega)]
      refine ⟨rfl, by omega, ?_⟩
      simp [ht]
    · rw [Bool.not_eq_true] at ht
      simp only [writerIndices, hc, ht, if_true, Bool.false_eq_true, if_false]
      rw [Nat.mod_eq_of_lt (by omega)]
      refine ⟨rfl, by omega, ?_⟩
      simp
  · rw [if_neg hc]
    rw [Bool.not_eq_true] at hc
    simp [writerIndices, hc]

/-- Witness for the amended C4 on the spec's example book with default
options (TOC generation on, cover present). -/
theorem writer_image_indices_witness :
    if (⟨true, true⟩ : WriteOptions).CoverImagePresent || HasImages exampleBook then
      (writerIndices exampleBook ⟨true, true⟩).2 = 1 + textRecordCount exampleBook ⟨true, true⟩ ∧
      (writerIndices exampleBook ⟨true, true⟩).1 = 1 + textRecordCount exampleBook ⟨true, true⟩ +
        (if (⟨true, true⟩ : WriteOptions).GenerateTOC && decide (0 < exampleBook.TOCChildren) then 1 else 0) ∧
      ((writerIndices exampleBook ⟨true, true⟩).1 = (writerIndices exampleBook ⟨true, true⟩).2 ↔
        ((⟨true, true⟩ : WriteOptions).GenerateTOC && decide (0 < exampleBook.TOCChildren)) = false)
    else
      (writerIndices exampleBook ⟨true, true⟩).1 = 0xFFFFFFFF ∧
      (writerIndices exampleBook ⟨true, true⟩).2 = 0xFFFFFFFF :=
  writer_image_indices exampleBook ⟨true, true⟩ (by decide)

end mobi6

/-! ### Package kf8 (src/mobi/kf8/skeleton.go)

The HTML chunker and the FDST flow-division table. -/

namespace kf8

/-- `FDST.Write` (skeleton.go lines 387-418) for a table whose
`Header.NumEntries` was maintained by `AddEntry` (so it equals the entry
count): the magic word written is the literal `0x46545354` of line 393,
then the total length and entry count as `uint32`, then the (start, end)
pairs. -/
def FDSTWrite (entries : List (Nat × Nat)) : List Nat :=
  let totalLen := 12 + entries.length * 8
  u32be 0x46545354 ++ u32be (totalLen % 2 ^ 32) ++
    u32be (entries.length % 2 ^ 32) ++
    (entries.map (fun e => u32be e.1 ++ u32be e.2)).flatten

/-- Claim C8 (code bug): the serialized FDST record does not begin with
the ASCII bytes "FDST" (0x46 0x44 0x53 0x54).  The magic constant in the
source is 0x46545354, which is "FTST": the second byte is 0x54 ('T'), not
0x44 ('D'), contradicting the comment `'FDST' in big-endian` on the very
line that defines it. -/
theorem fdst_magic_bug :
    (FDSTWrite []).take 4 = [0x46, 0x54, 0x53, 0x54] ∧
    (FDSTWrite [(0, 5)]).take 4 = [0x46, 0x54, 0x53, 0x54] ∧
    str "FDST" = [0x46, 0x44, 0x53, 0x54] ∧
    ([0x46, 0x54, 0x53, 0x54] : List Nat) ≠ [0x46, 0x44, 0x53, 0x54] := by
  exact ⟨by decide, by decide, by decide, by decide⟩

/-- `TagPosition` (skeleton.go lines 35-40); the tag name is a byte
string. -/
structure TagPosition where
  Tag : List Nat
  Position : Nat
  IsOpen : Bool
  SelfClose : Bool
deriving DecidableEq, Repr

/-- `strings.Index(s, ">")`: index of the first occurrence, `none` when
absent. -/
def indexFrom (target : Nat) : List Nat → Option Nat
  | [] => none
  | c :: rest =>
    if c = target then some 0 else (indexFrom target rest).map (· + 1)

/-- The candidate scan of `findBreakPoint` (skeleton.go lines 179-200):
walk the tag positions, skip those before `start`, stop at the first one
beyond `end + MinChunkSize`, and for each closing tag whose distance to
`end` improves on the best so far (or while the break is still the default
`end`), move the break to just after that tag's `>` — or to the end of the
input when no `>` follows. -/
def fbpLoop (html : List Nat) (start endP : Nat) :
    List TagPosition → Nat → Nat → Nat
  | [], bestBreak, _ => bestBreak
  | p :: ps, bestBreak, minDistance =>
    if p.Position < start then fbpLoop html start endP ps bestBreak minDistance
    else if p.Position > endP + 6144 then bestBreak
    else if ¬ p.IsOpen ∧ ¬ p.SelfClose then
      let distance := ((p.Position : Int) - (endP : Int)).natAbs
      if bestBreak = endP ∨ distance < minDistance then
        let bestBreak2 :=
          match indexFrom 62 (html.drop p.Position) with
          | some tagEnd => p.Position + tagEnd + 1
          | none => p.Position + (html.drop p.Position).length
        fbpLoop html start endP ps bestBreak2 distance
      else fbpLoop html start endP ps bestBreak minDistance
    else fbpLoop html start endP ps bestBreak minDistance

/-- `findBreakPoint` (skeleton.go lines 169-211); `MinChunkSize = 6144`,
`MaxChunkSize = 10240`.  The unused `openTags` parameter of the Go
function is omitted. -/
def findBreakPoint (html : List Nat) (start endP : Nat)
    (positions : List TagPosition) : Nat :=
  if endP ≥ html.length then html.length
  else
    let bestBreak := fbpLoop html start endP positions endP 0
    if bestBreak < start + 6144 ∧ bestBreak < html.length then start + 6144
    else if bestBreak > start + 10240 then start + 10240
    else bestBreak

/-- The chunking loop of `ChunkHTML` (skeleton.go lines 71-122), recorded
as (offset, length) pairs; the per-chunk tag bookkeeping is omitted
because `findBreakPoint` ignores its `openTags` argument, so it never
feeds back into the break positions.  Fuel counts loop iterations; `none`
would mean the loop failed to finish within `html.length` iterations. -/
def chunkLoop (html : List Nat) (positions : List TagPosition) :
    Nat → Nat → Option (List (Nat × Nat))
  | 0, pos => if pos < html.length then none else some []
  | fuel + 1, pos =>
    if pos < html.length then
      let endOffset :=
        if pos + 8192 > html.length then html.length else pos + 8192
      let bp := findBreakPoint html pos endOffset positions
      match chunkLoop html positions fuel bp with
      | some rest => some ((pos, bp - pos) :: rest)
      | none => none
    else some []

/-- `ChunkHTML` (skeleton.go lines 59-127) on the tag positions computed
by `parseHTMLTags`; the chunk structure depends only on the positions
list, so it is a parameter and the theorems quantify over every
well-formed positions list. -/
def ChunkHTML (html : List Nat) (positions : List TagPosition) :
    Option (List (Nat × Nat)) :=
  chunkLoop html positions html.length 0

/-- The chunks `(offset, length)` partition `[pos, len)` exactly: offsets
are consecutive, lengths are positive, and the final chunk ends at
`len`. -/
def chunksValid : List (Nat × Nat) → Nat → Nat → Prop
  | [], pos, len => pos = len
  | (o, l) :: rest, pos, len => o = pos ∧ 0 < l ∧ chunksValid rest (o + l) len

/-- `FDST.GenerateFromSkeleton` via `AddChunk` (skeleton.go lines 382-384
and 421-425): entry `(uint32(offset), uint32(offset+length))` per
chunk. -/
def fdstFromChunks (chunks : List (Nat × Nat)) : List (Nat × Nat) :=
  chunks.map (fun c => (c.1 % 2 ^ 32, (c.1 + c.2) % 2 ^ 32))

/-- The adjacent-overlap pass of `FDST.Validate` (skeleton.go lines
471-478): ok iff every entry ends no later than the next begins. -/
def fdstPairsOK : List (Nat × Nat) → Bool
  | a :: b :: rest => decide (a.2 ≤ b.1) && fdstPairsOK (b :: rest)
  | _ => true

/-- `FDST.Validate` (skeleton.go lines 469-488) as a boolean: no adjacent
overlap and `start < end` for every entry. -/
def fdstValidate (entries : List (Nat × Nat)) : Bool :=
  fdstPairsOK entries && entries.all (fun e => decide (e.1 < e.2))

theorem indexFrom_lt_length (t : Nat) (l : List Nat) (i : Nat)
    (h : indexFrom t l = some i) : i < l.length := by
  induction l generalizing i with
  | nil => simp [indexFrom] at h
  | cons c rest ih =>
    rw [indexFrom] at h
    by_cases hc : c = t
    · rw [if_pos hc] at h
      cases h
      simp
    · rw [if_neg hc] at h
      cases hr : indexFrom t rest with
      | none => rw [hr] at h; simp at h
      | some j =>
        rw [hr] at h
        simp at h
        have := ih j hr
        simp only [List.length_cons]
        omega

theorem fbpLoop_bounds (html : List Nat) (start endP : Nat)
    (hstart : start < html.length) :
    ∀ (ps : List TagPosition) (bb md : Nat),
      (∀ p ∈ ps, p.Position ≤ html.length) →
      start < bb → bb ≤ html.length →
      start < fbpLoop html start endP ps bb md ∧
        fbpLoop html start endP ps bb md ≤ html.length := by
  intro ps
  induction ps with
  | nil => intro bb md _ h1 h2; exact ⟨h1, h2⟩
  | cons p ps ih =>
    intro bb md hpos h1 h2
    have hpsub : ∀ q ∈ ps, q.Position ≤ html.length :=
      fun q hq => hpos q (by simp [hq])
    have hple : p.Position ≤ html.length := hpos p (by simp)
    rw [fbpLoop]
    by_cases hlt : p.Position < start
    · rw [if_pos hlt]; exact ih bb md hpsub h1 h2
    · rw [if_neg hlt]
      by_cases hfar : p.Position > endP + 6144
      · rw [if_pos hfar]; exact ⟨h1, h2⟩
      · rw [if_neg hfar]
        by_cases hclose : ¬ p.IsOpen = true ∧ ¬ p.SelfClose = true
        · rw [if_pos hclose]
          by_cases hupd : bb = endP ∨
              ((p.Position : Int) - (endP : Int)).natAbs < md
          · rw [if_pos hupd]
            cases hidx : indexFrom 62 (html.drop p.Position) with
            | some tagEnd =>
              have htl := indexFrom_lt_length 62 (html.drop p.Position) tagEnd hidx
              rw [List.length_drop] at htl
              exact ih (p.Position + tagEnd + 1) _ hpsub (by omega) (by omega)
            | none =>
              exact ih (p.Position + (html.drop p.Position).length) _ hpsub
                (by rw [List.length_drop]; omega) (by rw [List.length_drop]; omega)
          · rw [if_neg hupd]; exact ih bb md hpsub h1 h2
        · rw [if_neg hclose]; exact ih bb md hpsub h1 h2

theorem findBreakPoint_bounds (html : List Nat) (positions : List TagPosition)
    (hpos : ∀ p ∈ positions, p.Position ≤ html.length)
    (pos : Nat) (hlt : pos < html.length) :
    pos < findBreakPoint html pos
        (if pos + 8192 > html.length then html.length else pos + 8192) positions ∧
      findBreakPoint html pos
        (if pos + 8192 > html.length then html.length else pos + 8192) positions ≤
        html.length := by
  by_cases hbig : pos + 8192 ≥ html.length
  · by_cases hgt : pos + 8192 > html.length
    · rw [if_pos hgt, findBreakPoint, if_pos (le_refl _)]
      exact ⟨hlt, le_refl _⟩
    · rw [if_neg hgt, findBreakPoint, if_pos hbig]
      exact ⟨hlt, le_refl _⟩
  · have hgt : ¬ (pos + 8192 > html.length) := by omega
    rw [if_neg hgt, findBreakPoint]
    rw [if_neg hbig]
    have hbb := fbpLoop_bounds html pos (pos + 8192) hlt positions (pos + 8192) 0
      hpos (by omega) (by omega)
    by_cases h1 : fbpLoop html pos (pos + 8192) positions (pos + 8192) 0 <
        pos + 6144 ∧
        fbpLoop html pos (pos + 8192) positions (pos + 8192) 0 < html.length
    · rw [if_pos h1]
      constructor <;> omega
    · rw [if_neg h1]
      by_cases h2 : fbpLoop html pos (pos + 8192) positions (pos + 8192) 0 >
          pos + 10240
      · rw [if_pos h2]
        constructor <;> omega
      · rw [if_neg h2]
        constructor <;> omega

theorem chunkLoop_valid (html : List Nat) (positions : List TagPosition)
    (hpos : ∀ p ∈ positions, p.Position ≤ html.length) :
    ∀ (fuel pos : Nat), pos ≤ html.length → html.length - pos ≤ fuel →
      ∃ chunks, chunkLoop html positions fuel pos = some chunks ∧
        chunksValid chunks pos html.length := by
  intro fuel
  induction fuel with
  | zero =>
    intro pos h1 h2
    have hpl : pos = html.length := by omega
    have hcond : ¬ (pos < html.length) := by omega
    refine ⟨[], ?_, hpl⟩
    rw [chunkLoop, if_neg hcond]
  | succ fuel ih =>
    intro pos h1 h2
    by_cases hlt : pos < html.length
    · obtain ⟨hgt, hle⟩ := findBreakPoint_bounds html positions hpos pos hlt
      obtain ⟨rest, hrest, hvalid⟩ := ih
        (findBreakPoint html pos
          (if pos + 8192 > html.length then html.length else pos + 8192)
          positions)
        hle (by omega)
      refine ⟨(pos, findBreakPoint html pos
          (if pos + 8192 > html.length then html.length else pos + 8192)
          positions - pos) :: rest, ?_, ?_⟩
      · rw [chunkLoop, if_pos hlt]
        simp only [hrest]
      · refine ⟨rfl, by omega, ?_⟩
        have heq : pos + (findBreakPoint html pos
            (if pos + 8192 > html.length then html.length else pos + 8192)
            positions - pos) =
            findBreakPoint html pos
              (if pos + 8192 > html.length then html.length else pos + 8192)
              positions := by omega
        rw [heq]
        exact hvalid
    · have hpl : pos = html.length := by omega
      refine ⟨[], ?_, hpl⟩
      rw [chunkLoop, if_neg hlt]

theorem chunksValid_le (chunks : List (Nat × Nat)) :
    ∀ pos len, chunksValid chunks pos len → pos ≤ len := by
  induction chunks with
  | nil => intro pos len h; exact le_of_eq h
  | cons c rest ih =>
    intro pos len h
    obtain ⟨ho, hl, hrest⟩ := h
    have := ih (c.1 + c.2) len hrest
    omega

theorem fdstValidate_of_chunksValid (chunks : List (Nat × Nat)) :
    ∀ pos len, len < 2 ^ 32 → chunksValid chunks pos len →
      fdstValidate (fdstFromChunks chunks) = true := by
  induction chunks with
  | nil => intro pos len _ _; rfl
  | cons c rest ih =>
    intro pos len hlen h
    obtain ⟨ho, hl, hrest⟩ := h
    have hcle : c.1 + c.2 ≤ len := chunksValid_le rest (c.1 + c.2) len hrest
    have hihv := ih (c.1 + c.2) len hlen hrest
    rw [fdstValidate, Bool.and_eq_true] at hihv ⊢
    obtain ⟨hpairs, hall⟩ := hihv
    constructor
    · cases rest with
      | nil =>
        simp [fdstFromChunks, fdstPairsOK]
      | cons c2 rest2 =>
        obtain ⟨ho2, hl2, hrest2⟩ := hrest
        simp only [fdstFromChunks, List.map_cons, fdstPairsOK,
          Bool.and_eq_true, decide_eq_true_eq]
        constructor
        · rw [Nat.mod_eq_of_lt (by omega), ho2, Nat.mod_eq_of_lt (by omega)]
        · simpa [fdstFromChunks, List.map_cons] using hpairs
    · simp only [fdstFromChunks, List.map_cons, List.all_cons,
        Bool.and_eq_true, decide_eq_true_eq]
      constructor
      · rw [Nat.mod_eq_of_lt (by omega), Nat.mod_eq_of_lt (by omega)]
        omega
      · simpa [fdstFromChunks] using hall

/-- Claim C10: for every input and every well-formed tag-position list,
`ChunkHTML` terminates (the loop finishes within `length` iterations) and
its chunks exactly partition the input — first offset 0, positive lengths,
consecutive offsets, final chunk ending at the input length — and the FDST
generated from the chunks via `GenerateFromSkeleton` has `start < end` and
non-overlapping consecutive entries, so `FDST.Validate` accepts it
(the input length must fit the 32-bit FDST fields). -/
theorem chunk_partition (html : List Nat) (positions : List TagPosition)
    (hpos : ∀ p ∈ positions, p.Position ≤ html.length)
    (hlen : html.length < 2 ^ 32) :
    ChunkHTML html positions ≠ none ∧
    chunksValid ((ChunkHTML html positions).getD []) 0 html.length ∧
    fdstValidate (fdstFromChunks ((ChunkHTML html positions).getD [])) = true := by
  obtain ⟨chunks, hch, hvalid⟩ :=
    chunkLoop_valid html positions hpos html.length 0 (by omega) (by omega)
  rw [ChunkHTML, hch]
  refine ⟨by simp, ?_, ?_⟩
  · simpa using hvalid
  · simp only [Option.getD_some]
    exact fdstValidate_of_chunksValid chunks 0 html.length hlen hvalid

/-- Witness for C10 on the two-byte input "hi" with no tag positions. -/
theorem chunk_partition_witness :
    ChunkHTML (str "hi") [] ≠ none ∧
    chunksValid ((ChunkHTML (str "hi") []).getD []) 0 (str "hi").length ∧
    fdstValidate (fdstFromChunks ((ChunkHTML (str "hi") []).getD [])) = true :=
  chunk_partition (str "hi") [] (by simp) (by norm_num [str])

end kf8

end Fb2c
